import Mathlib

/-!
Verification development for the script-automation application.

The definitions below are shallow embeddings of the source files:
the API access layer (key rotation, global pacing, terminal error
message extraction), the generation client, the outline parser and
the automation job engine.  Stateful code is modelled by explicit
state passing; the upstream provider is modelled as an oracle
parameter; JavaScript numbers that the program itself writes are
modelled as naturals, while raw persisted values read back from
storage are modelled by a JavaScript number type with a NaN case.
-/

namespace ScriptApp

/-! ## Credential store: reading the persisted current index

Models `getCurrentKeyIndex` and the clamp at the top of
`callGeminiApi`.  The persisted value is an arbitrary string (or
absent), read with JavaScript `parseInt(s, 10)`, which can produce
a negative number or NaN. -/

/-- A JavaScript number as produced by `parseInt`: either an integer
or NaN. -/
inductive JSNum where
  | nan
  | int (i : Int)
deriving DecidableEq, Repr

/-- Characters treated as whitespace by JavaScript string trimming
(the ASCII ones; the inputs of interest are ASCII). -/
def jsWhitespace (c : Char) : Bool :=
  c = ' ' || c = '\t' || c = '\n' || c = '\r'

/-- Numeric value of a list of decimal digit characters. -/
def digitsVal (ds : List Char) : Nat :=
  ds.foldl (fun acc c => acc * 10 + (c.toNat - '0'.toNat)) 0

/-- Model of JavaScript `parseInt(s, 10)`: skip leading whitespace,
read an optional sign and then the longest prefix of decimal digits;
NaN when there is no digit. -/
def parseIntJS (s : String) : JSNum :=
  let cs := s.toList.dropWhile jsWhitespace
  let (neg, rest) :=
    match cs with
    | '-' :: r => (true, r)
    | '+' :: r => (false, r)
    | r => (false, r)
  let ds := rest.takeWhile Char.isDigit
  if ds.isEmpty then JSNum.nan
  else JSNum.int (if neg then -(digitsVal ds : Int) else (digitsVal ds : Int))

/-- Model of `getCurrentKeyIndex` (src/unnamed/part_000 lines 10-13):
the session-storage value is absent (`none`) or a string; an absent or
empty string is falsy and yields 0, otherwise the string is parsed
with `parseInt(_, 10)`. -/
def getCurrentKeyIndex (stored : Option String) : JSNum :=
  match stored with
  | none => JSNum.int 0
  | some s => if s = "" then JSNum.int 0 else parseIntJS s

/-- The comparison `keyIndex >= apiKeys.length` of line 43: false for
NaN, the integer comparison otherwise. -/
def jsGeLen (j : JSNum) (len : Nat) : Bool :=
  match j with
  | JSNum.nan => false
  | JSNum.int i => (len : Int) ≤ i

/-- Model of lines 42-45 of `callGeminiApi`: the index the failover
loop starts from, after the only clamp the code performs (reset to 0
when the stored index is at least the list length). -/
def effectiveKeyIndex (stored : Option String) (len : Nat) : JSNum :=
  let keyIndex := getCurrentKeyIndex stored
  if jsGeLen keyIndex len then JSNum.int 0 else keyIndex

/-! ## Access layer: global pacing gate

Models lines 28-40 of `callGeminiApi`.  `lastApiCallTimestamp` is a
single module-level variable shared by all callers and credentials.
The timer is idealized: a sleep of `waitTime` wakes exactly
`waitTime` milliseconds later, so the `Date.now()` stamped after
waking equals the previous timestamp plus the minimum delay. -/

def MIN_DELAY_BETWEEN_CALLS_MS : Int := 7000

/-- Given the shared last-call timestamp and the current clock, the
time at which the call is actually issued, which is also the value
stamped back into the shared timestamp before the provider call
completes. -/
def paceGate (lastTs now : Int) : Int :=
  if now - lastTs < MIN_DELAY_BETWEEN_CALLS_MS then
    lastTs + MIN_DELAY_BETWEEN_CALLS_MS
  else now

/-! ## JSON values, for the terminal error message extraction

Models lines 72-84 of `callGeminiApi`: the last captured error
message is fed to `JSON.parse` and, when it parses to an object of
the shape with an `error` object holding a truthy `message`, that
nested message replaces the raw one. -/

/-- A parsed JSON value.  Numbers keep their source lexeme; the
program never does arithmetic on them, it only tests truthiness. -/
inductive Json where
  | null
  | bool (b : Bool)
  | num (lexeme : String)
  | str (s : String)
  | arr (elems : List Json)
  | obj (fields : List (String × Json))

/-- JSON whitespace. -/
def skipWs (cs : List Char) : List Char :=
  cs.dropWhile (fun c => c = ' ' || c = '\t' || c = '\n' || c = '\r')

/-- Value of a hexadecimal digit. -/
def hexDigitVal (c : Char) : Option Nat :=
  if '0' ≤ c ∧ c ≤ '9' then some (c.toNat - '0'.toNat)
  else if 'a' ≤ c ∧ c ≤ 'f' then some (c.toNat - 'a'.toNat + 10)
  else if 'A' ≤ c ∧ c ≤ 'F' then some (c.toNat - 'A'.toNat + 10)
  else none

/-- Body of a JSON string literal, after the opening quote.  The
accumulator holds the decoded characters in reverse. -/
def parseJsonStringAux : List Char → List Char → Option (String × List Char)
  | acc, '"' :: r => some (String.mk acc.reverse, r)
  | acc, '\\' :: '"' :: r => parseJsonStringAux ('"' :: acc) r
  | acc, '\\' :: '\\' :: r => parseJsonStringAux ('\\' :: acc) r
  | acc, '\\' :: '/' :: r => parseJsonStringAux ('/' :: acc) r
  | acc, '\\' :: 'b' :: r => parseJsonStringAux ('\x08' :: acc) r
  | acc, '\\' :: 'f' :: r => parseJsonStringAux ('\x0c' :: acc) r
  | acc, '\\' :: 'n' :: r => parseJsonStringAux ('\n' :: acc) r
  | acc, '\\' :: 'r' :: r => parseJsonStringAux ('\r' :: acc) r
  | acc, '\\' :: 't' :: r => parseJsonStringAux ('\t' :: acc) r
  | acc, '\\' :: 'u' :: a :: b :: c :: d :: r =>
    match hexDigitVal a, hexDigitVal b, hexDigitVal c, hexDigitVal d with
    | some x, some y, some z, some w =>
      parseJsonStringAux (Char.ofNat (((x * 16 + y) * 16 + z) * 16 + w) :: acc) r
    | _, _, _, _ => none
  | _, '\\' :: _ => none
  | acc, c :: r => if c.toNat < 32 then none else parseJsonStringAux (c :: acc) r
  | _, [] => none

/-- Exponent suffix of a JSON number; `lex` is the lexeme read so
far. -/
def parseJsonNumExp (lex : List Char) (cs : List Char) : Option (Json × List Char) :=
  match cs with
  | 'e' :: r =>
    let (sgn, r1) := match r with
      | '+' :: r' => (['e', '+'], r')
      | '-' :: r' => (['e', '-'], r')
      | r' => (['e'], r')
    let ds := r1.takeWhile Char.isDigit
    if ds.isEmpty then none
    else some (Json.num (String.mk (lex ++ sgn ++ ds)), r1.drop ds.length)
  | 'E' :: r =>
    let (sgn, r1) := match r with
      | '+' :: r' => (['E', '+'], r')
      | '-' :: r' => (['E', '-'], r')
      | r' => (['E'], r')
    let ds := r1.takeWhile Char.isDigit
    if ds.isEmpty then none
    else some (Json.num (String.mk (lex ++ sgn ++ ds)), r1.drop ds.length)
  | _ => some (Json.num (String.mk lex), cs)

/-- Fractional part of a JSON number, then its exponent. -/
def parseJsonNumFrac (lex : List Char) (cs : List Char) : Option (Json × List Char) :=
  match cs with
  | '.' :: r =>
    let ds := r.takeWhile Char.isDigit
    if ds.isEmpty then none
    else parseJsonNumExp (lex ++ '.' :: ds) (r.drop ds.length)
  | _ => parseJsonNumExp lex cs

/-- A JSON number: optional minus, then `0` or a nonzero-led digit
run, then optional fraction and exponent, per the strict JSON
grammar. -/
def parseJsonNumber (cs : List Char) : Option (Json × List Char) :=
  let (sign, r1) := match cs with
    | '-' :: r => (['-'], r)
    | r => (([] : List Char), r)
  match r1 with
  | '0' :: r2 =>
    match r2 with
    | c :: _ => if c.isDigit then none else parseJsonNumFrac (sign ++ ['0']) r2
    | [] => parseJsonNumFrac (sign ++ ['0']) r2
  | c :: _ =>
    if c.isDigit then
      let ds := r1.takeWhile Char.isDigit
      parseJsonNumFrac (sign ++ ds) (r1.drop ds.length)
    else none
  | [] => none

mutual

/-- A JSON value, by recursive descent with fuel. -/
def parseJsonValue : Nat → List Char → Option (Json × List Char)
  | 0, _ => none
  | fuel + 1, cs =>
    match skipWs cs with
    | 'n' :: 'u' :: 'l' :: 'l' :: r => some (Json.null, r)
    | 't' :: 'r' :: 'u' :: 'e' :: r => some (Json.bool true, r)
    | 'f' :: 'a' :: 'l' :: 's' :: 'e' :: r => some (Json.bool false, r)
    | '"' :: r =>
      match parseJsonStringAux [] r with
      | some (s, r') => some (Json.str s, r')
      | none => none
    | '[' :: r =>
      match skipWs r with
      | ']' :: r' => some (Json.arr [], r')
      | _ =>
        match parseJsonElements fuel r with
        | some (vs, r') => some (Json.arr vs, r')
        | none => none
    | '{' :: r =>
      match skipWs r with
      | '}' :: r' => some (Json.obj [], r')
      | _ =>
        match parseJsonMembers fuel r with
        | some (fs, r') => some (Json.obj fs, r')
        | none => none
    | rest => parseJsonNumber rest

/-- Comma-separated array elements up to the closing bracket. -/
def parseJsonElements : Nat → List Char → Option (List Json × List Char)
  | 0, _ => none
  | fuel + 1, cs =>
    match parseJsonValue fuel cs with
    | none => none
    | some (v, r) =>
      match skipWs r with
      | ',' :: r' =>
        match parseJsonElements fuel r' with
        | some (vs, r'') => some (v :: vs, r'')
        | none => none
      | ']' :: r' => some ([v], r')
      | _ => none

/-- Comma-separated object members up to the closing brace. -/
def parseJsonMembers : Nat → List Char → Option (List (String × Json) × List Char)
  | 0, _ => none
  | fuel + 1, cs =>
    match skipWs cs with
    | '"' :: r =>
      match parseJsonStringAux [] r with
      | none => none
      | some (key, r1) =>
        match skipWs r1 with
        | ':' :: r2 =>
          match parseJsonValue fuel r2 with
          | none => none
          | some (v, r3) =>
            match skipWs r3 with
            | ',' :: r4 =>
              match parseJsonMembers fuel r4 with
              | some (fs, r5) => some ((key, v) :: fs, r5)
              | none => none
            | '}' :: r4 => some ([(key, v)], r4)
            | _ => none
        | _ => none
    | _ => none

end

/-- Model of `JSON.parse`: the whole input must be one JSON value
surrounded only by whitespace. -/
def jsonParse (s : String) : Option Json :=
  let cs := s.toList
  match parseJsonValue (2 * cs.length + 2) cs with
  | some (v, r) => if (skipWs r).isEmpty then some v else none
  | none => none

/-- Property access on a parsed JSON value, as JavaScript optional
chaining does it: only objects have the property, and a key written
twice in the source keeps its last value. -/
def jsLookup (v : Json) (key : String) : Option Json :=
  match v with
  | Json.obj fields => ((fields.reverse).find? (fun p => p.1 = key)).map (fun p => p.2)
  | _ => none

/-- Whether a JSON number lexeme denotes zero: every mantissa digit
is 0. -/
def jsonNumIsZero (lex : String) : Bool :=
  let cs := lex.toList.dropWhile (fun c => c = '-')
  let mantissa := cs.takeWhile (fun c => c ≠ 'e' && c ≠ 'E')
  mantissa.all (fun c => c = '0' || c = '.')

/-- JavaScript truthiness of a parsed JSON value. -/
def jsTruthy : Json → Bool
  | Json.null => false
  | Json.bool b => b
  | Json.num lex => !(jsonNumIsZero lex)
  | Json.str s => s ≠ ""
  | Json.arr _ => true
  | Json.obj _ => true

mutual

/-- Template-literal stringification of a JSON value.  Number
lexemes are used verbatim, which agrees with JavaScript on the
canonical integer lexemes that occur in provider payloads. -/
def jsDisplay : Json → String
  | Json.null => "null"
  | Json.bool b => if b then "true" else "false"
  | Json.num lex => lex
  | Json.str s => s
  | Json.arr es => jsDisplayList es
  | Json.obj _ => "[object Object]"

/-- Elements of an array joined by commas, as `Array.toString`. -/
def jsDisplayList : List Json → String
  | [] => ""
  | [v] => jsDisplay v
  | v :: vs => jsDisplay v ++ "," ++ jsDisplayList vs

end

/-- Model of lines 73-83: the message carried by the terminal error
when every key failed.  When the raw message parses as JSON holding
a truthy `error.message`, that nested message is used, otherwise the
raw message stands. -/
def finalErrorMessage (raw : String) : String :=
  match jsonParse raw with
  | none => raw
  | some parsed =>
    match jsLookup parsed "error" with
    | none => raw
    | some ev =>
      match jsLookup ev "message" with
      | none => raw
      | some mv => if jsTruthy mv then jsDisplay mv else raw

/-! ## Access layer: the failover loop and `callGeminiApi`

Models lines 19-89 of src/unnamed/part_000.  The provider is an
oracle from the key position tried to either a response (its `.text`
is forced inside the try block, so a safety-blocked response also
surfaces as an error) or an error message.  The stored key index the
program itself persists is a loop index, hence a natural number;
reads of foreign stored strings are modelled by
`getCurrentKeyIndex` above. -/

def NO_KEYS_MSG : String :=
  "No Gemini API keys found. Please add a key in the API Manager."

def ALL_FAILED_PREFIX : String := "All API keys failed. Last error: "

def ALL_FAILED_FALLBACK : String :=
  "All available API keys failed. Please check your keys in the API Manager or add new ones."

/-- Result of the for loop of lines 50-70: the key positions
attempted in order, the first success (position and response) if
any, and the last captured error. -/
structure LoopResult where
  attempts : List Nat
  success : Option (Nat × String)
  lastError : Option String
deriving Repr

/-- The for loop of lines 50-70: try the key at `keyIndex`; on
success stop, on failure record the error and move to the next
position modulo `len`.  `fuel` is the remaining iteration count,
`apiKeys.length` at the top call. -/
def keyLoop (oracle : Nat → Except String String) (len : Nat) :
    Nat → Nat → Option String → LoopResult
  | 0, _, lastError => ⟨[], none, lastError⟩
  | fuel + 1, keyIndex, lastError =>
    match oracle keyIndex with
    | Except.ok r => ⟨[keyIndex], some (keyIndex, r), lastError⟩
    | Except.error e =>
      let rest := keyLoop oracle len fuel ((keyIndex + 1) % len) (some e)
      ⟨keyIndex :: rest.attempts, rest.success, rest.lastError⟩

/-- The module-level mutable state of the access layer: the
persisted current key index and the shared last-call timestamp. -/
structure ApiState where
  storedIndex : Nat
  lastApiCallTimestamp : Int
deriving Repr, DecidableEq

/-- How one `callGeminiApi` call ends. -/
inductive ApiOutcome where
  | noKeys (msg : String)
  | success (keyIndex : Nat) (response : String)
  | allFailed (msg : String)
deriving Repr, DecidableEq

/-- One `callGeminiApi` call: outcome, the key positions attempted,
and the module state afterwards. -/
structure InvokeResult where
  outcome : ApiOutcome
  attempts : List Nat
  state : ApiState
deriving Repr, DecidableEq

/-- Model of `callGeminiApi` (lines 19-89): fail fast when no key is
stored (before the pacing gate), otherwise wait out the pacing gate
and stamp the shared timestamp, clamp the stored index, and run the
failover loop; a success pins the stored index to the key that
worked, exhaustion raises the terminal message built from the last
error. -/
def callGeminiApi (apiKeys : List String) (oracle : Nat → Except String String)
    (now : Int) (st : ApiState) : InvokeResult :=
  if apiKeys.length = 0 then ⟨ApiOutcome.noKeys NO_KEYS_MSG, [], st⟩
  else
    let issueTime := paceGate st.lastApiCallTimestamp now
    let keyIndex := if st.storedIndex ≥ apiKeys.length then 0 else st.storedIndex
    let L := keyLoop oracle apiKeys.length apiKeys.length keyIndex none
    match L.success with
    | some (k, r) => ⟨ApiOutcome.success k r, L.attempts, ⟨k, issueTime⟩⟩
    | none =>
      match L.lastError with
      | some e =>
        ⟨ApiOutcome.allFailed (ALL_FAILED_PREFIX ++ finalErrorMessage e),
          L.attempts, ⟨st.storedIndex, issueTime⟩⟩
      | none => ⟨ApiOutcome.allFailed ALL_FAILED_FALLBACK, L.attempts, ⟨st.storedIndex, issueTime⟩⟩

/-! ## Generation client -/

/-- One entry of the parsed outline (types.ts). -/
structure ChapterOutline where
  id : Nat
  title : String
  wordCount : Nat
  concept : String
deriving Repr, DecidableEq

/-- Model of `generateChapterBatch` (src/unnamed/part_000 lines
112-135): an empty chapter list returns immediately; otherwise one
access-layer call is made (the prompt built from the template
constants is abstracted into the oracle) and its response is split
on the literal delimiter, each segment trimmed.  The third component
is the list of key positions attempted, empty when no provider call
was issued. -/
def generateChapterBatch (apiKeys : List String) (oracle : Nat → Except String String)
    (now : Int) (st : ApiState) (_fullOutlinesText : String)
    (chapters : List ChapterOutline) :
    Except String (List String) × ApiState × List Nat :=
  if chapters.length = 0 then (Except.ok [], st, [])
  else
    let r := callGeminiApi apiKeys oracle now st
    match r.outcome with
    | ApiOutcome.success _ resp =>
      (Except.ok ((resp.splitOn "---CHAPTER-BREAK---").map String.trim), r.state, r.attempts)
    | ApiOutcome.noKeys m => (Except.error m, r.state, r.attempts)
    | ApiOutcome.allFailed m => (Except.error m, r.state, r.attempts)

/-! ## JavaScript string primitives

The outline parser and the word counter are evaluated inside
proofs, so the JavaScript string operations they use are modelled
by structurally recursive functions on character lists. -/

/-- Whitespace for JavaScript `trim` and the `\s` class (the ASCII
part). -/
def jsWs (c : Char) : Bool :=
  c = ' ' || c = '\t' || c = '\n' || c = '\r' || c = '\x0b' || c = '\x0c'

/-- Split at every character satisfying the predicate; the
accumulator holds the current piece reversed. -/
def splitByAux (p : Char → Bool) : List Char → List Char → List (List Char)
  | acc, [] => [acc.reverse]
  | acc, x :: xs =>
    if p x then acc.reverse :: splitByAux p [] xs else splitByAux p (x :: acc) xs

/-- Model of `s.split('\n')`. -/
def linesOf (s : String) : List String :=
  (splitByAux (fun c => c = '\n') [] s.toList).map String.mk

/-- Model of `String.prototype.trim`. -/
def jsTrim (s : String) : String :=
  String.mk (((s.toList.dropWhile jsWs).reverse.dropWhile jsWs).reverse)

/-- Model of `String.prototype.startsWith`. -/
def strStartsWith (s pre : String) : Bool :=
  pre.toList.isPrefixOf s.toList

/-- Dropping a fixed number of leading characters. -/
def strDrop (s : String) (n : Nat) : String :=
  String.mk (s.toList.drop n)

/-- Model of `String.prototype.toLowerCase` on ASCII. -/
def jsToLower (s : String) : String :=
  String.mk (s.toList.map (fun c =>
    if 'A' ≤ c && c ≤ 'Z' then Char.ofNat (c.toNat + 32) else c))

/-- Model of `text.join('\n')` on pieces. -/
def joinChar (c : Char) : List (List Char) → List Char
  | [] => []
  | [l] => l
  | l :: ls => l ++ c :: joinChar c ls

/-- Model of `lines.join('\n')`. -/
def intercalateNL (ls : List String) : String :=
  String.mk (joinChar '\n' (ls.map String.toList))

/-! ## Outline parser

Models `parseOutlineResponse` (src/unnamed/part_001 lines 106-132).
The regular expressions of the source are compiled by hand:
multiline `^` anchors become per-line checks, and the block split on
the lookahead `(?=^Chapter \d+:)` becomes a grouping of lines where
each line matching the chapter marker starts a new block, with the
newline before a marker belonging to the preceding block. -/

/-- A line matching `^Chapter (\d+):`, the id pattern and the block
split lookahead. -/
def isChapterIdLine (line : String) : Bool :=
  let cs := line.toList
  "Chapter ".toList.isPrefixOf cs &&
    (let rest := cs.drop 8
     let ds := rest.takeWhile Char.isDigit
     !ds.isEmpty && ":".toList.isPrefixOf (rest.drop ds.length))

/-- A line matching `^Chapter \d+: ` with the colon-space of the
title pattern (also the header pattern removed for chapter 0). -/
def isChapterTitleLine (line : String) : Bool :=
  let cs := line.toList
  "Chapter ".toList.isPrefixOf cs &&
    (let rest := cs.drop 8
     let ds := rest.takeWhile Char.isDigit
     !ds.isEmpty && ": ".toList.isPrefixOf (rest.drop ds.length))

/-- The chapter number of a line matching the id pattern. -/
def chapterIdOf (line : String) : Nat :=
  digitsVal ((line.toList.drop 8).takeWhile Char.isDigit)

/-- The capture of `^Chapter \d+: (.*?)$`: the rest of the line
after the colon-space (the caller trims it). -/
def chapterTitleCapture (line : String) : String :=
  let rest := line.toList.drop 8
  let ds := rest.takeWhile Char.isDigit
  String.mk (rest.drop (ds.length + 2))

/-- A line matching `^\(Word Count: (\d+) words\)$` exactly. -/
def isWordCountLine (line : String) : Bool :=
  let cs := line.toList
  "(Word Count: ".toList.isPrefixOf cs &&
    (let rest := cs.drop 13
     let ds := rest.takeWhile Char.isDigit
     !ds.isEmpty && rest.drop ds.length = " words)".toList)

/-- The word count captured by the word count pattern. -/
def wordCountOf (line : String) : Nat :=
  digitsVal ((line.toList.drop 13).takeWhile Char.isDigit)

/-- Index of the first occurrence of `needle` in the haystack
suffix, counting from `i`. -/
def findSubstrFrom (needle : List Char) : List Char → Nat → Option Nat
  | [], i => if needle.isEmpty then some i else none
  | h :: t, i =>
    if needle.isPrefixOf (h :: t) then some i else findSubstrFrom needle t (i + 1)

/-- The capture of `/Concept: ([\s\S]*)/`: everything after the
first occurrence of the marker, to the end of the block. -/
def conceptCapture (block : String) : Option String :=
  (findSubstrFrom "Concept: ".toList block.toList 0).map
    (fun i => String.mk (block.toList.drop (i + 9)))

/-- First index of a line matching the chapter 0 header pattern
`^Chapter \d+: .*?\n`; the trailing newline of the pattern means the
last line of the block cannot match. -/
def firstHeaderIdx : List String → Nat → Option Nat
  | [], _ => none
  | [_], _ => none
  | l :: rest, i => if isChapterTitleLine l then some i else firstHeaderIdx rest (i + 1)

/-- Model of `block.replace(/^Chapter \d+: .*?\n/m, '')`: remove the
first matching header line together with its newline. -/
def removeChapterHeaderLine (block : String) : String :=
  let ls := linesOf block
  match firstHeaderIdx ls 0 with
  | some i => intercalateNL (ls.eraseIdx i)
  | none => block

/-- Lines of one block: those before the next chapter marker, and
the remaining lines. -/
def takeBlock : List String → List String × List String
  | [] => ([], [])
  | l :: ls =>
    if isChapterIdLine l then ([], l :: ls)
    else
      let p := takeBlock ls
      (l :: p.1, p.2)

/-- Group lines into blocks: every line matching the chapter marker
starts a new block; the first line always belongs to the first
block, matching the lookahead split which produces no leading empty
piece.  `fuel` bounds the recursion structurally; since `takeBlock`
returns a suffix of its input, `fuel = lines.length` always
suffices. -/
def blocksAux : Nat → List String → List (List String)
  | _, [] => []
  | 0, _ :: _ => []
  | fuel + 1, l :: ls =>
    let p := takeBlock ls
    (l :: p.1) :: blocksAux fuel p.2

/-- The block strings of `text.split(/(?=^Chapter \d+:)/m)`: lines
regrouped, every block but the last keeping the newline that
separated it from the next block. -/
def chapterBlocks (text : String) : List String :=
  let lines := linesOf text
  let groups := blocksAux lines.length lines
  let n := groups.length
  groups.enum.map
    (fun p => intercalateNL p.2 ++ if p.1 + 1 < n then "\n" else "")

/-- Model of the per-block body of the parsing loop (lines
114-130): a block is kept only when the id and title patterns both
match; id 0 is special-cased as The Hook with the rest of the block
as concept; other ids additionally need a word count line and a
concept marker, keeping only the first line of the concept
capture. -/
def parseBlock (block : String) : Option ChapterOutline :=
  if !(strStartsWith (jsTrim block) "Chapter") then none
  else
    let ls := linesOf block
    match ls.find? isChapterIdLine, ls.find? isChapterTitleLine with
    | some idLine, some titleLine =>
      let id := chapterIdOf idLine
      let chapterTitle := jsTrim (chapterTitleCapture titleLine)
      if id = 0 then
        some ⟨0, "The Hook", 0, jsTrim (removeChapterHeaderLine block)⟩
      else
        match ls.find? isWordCountLine, conceptCapture block with
        | some wcLine, some cap =>
          some ⟨id, chapterTitle, wordCountOf wcLine, (linesOf (jsTrim cap)).headD ""⟩
        | _, _ => none
    | _, _ => none

/-- Result of the outline parser. -/
structure ParsedOutline where
  refinedTitle : String
  outlines : List ChapterOutline
deriving Repr, DecidableEq

/-- Model of `parseOutlineResponse`: the refined title comes from
the first nonblank line starting (case-insensitively) with the
title marker, defaulting to the placeholder; the outline list
collects the blocks the loop accepts, in order. -/
def parseOutlineResponse (text : String) : ParsedOutline :=
  let lines := (linesOf text).filter (fun l => jsTrim l ≠ "")
  let titleLine := lines.find? (fun l => strStartsWith (jsToLower l) "title:")
  let refinedTitle :=
    match titleLine with
    | some l => jsTrim (strDrop l 6)
    | none => "Untitled Story"
  ⟨refinedTitle, (chapterBlocks text).filterMap parseBlock⟩

/-! ## Job engine

Models the automation queue of src/unnamed/part_001: the job record
(types.ts), the STOP control (lines 254-257), the pause and stop
check (lines 291-299), and the stage-resumption body that drives a
single picked job through its missing stages (lines 301-370).
State updates through the job store are modelled as immediate reads
and writes of a single job value; the three generation calls are
oracles, with the chapter batch oracle keyed by the requested
chapter ids. -/

/-- Per-job status (types.ts `AutomationJobStatus`). -/
inductive JobStatus where
  | PENDING
  | RUNNING
  | DONE
  | FAILED
deriving DecidableEq, Repr

/-- The job record (types.ts `ScriptJob`).  Absent optional fields
are `none`; absent numeric progress fields are modelled as 0. -/
structure ScriptJob where
  id : String
  title : String
  concept : String
  duration : Nat
  status : JobStatus
  createdAt : Nat
  error : Option String
  rawOutlineText : String
  refinedTitle : String
  outlines : List ChapterOutline
  hook : String
  chaptersContent : List String
  currentTask : Option String
  wordsWritten : Nat
  totalWords : Nat
deriving DecidableEq, Repr

instance : Inhabited ScriptJob :=
  ⟨⟨"", "", "", 0, JobStatus.PENDING, 0, none, "", "", [], "", [], none, 0, 0⟩⟩

/-- The word counting convention (lines 88 and 274): split on
whitespace, drop empty tokens, count the rest. -/
def countWords (s : String) : Nat :=
  ((splitByAux jsWs [] s.toList).filter (fun t => !t.isEmpty)).length

/-- Reading `chaptersContent[i]`: out-of-range reads are undefined,
which every use treats like the empty string (falsy, zero words). -/
def contentAt (content : List String) (i : Nat) : String :=
  content.getD i ""

/-- Writing `newContent[i] = v` on a JavaScript array: in-range
writes replace, out-of-range writes extend the array, the holes
reading back as undefined (modelled as empty strings). -/
def listSet : List String → Nat → String → List String
  | [], 0, v => [v]
  | [], n + 1, v => "" :: listSet [] n v
  | _ :: xs, 0, v => v :: xs
  | x :: xs, n + 1, v => x :: listSet xs n v

/-- The body of `batch.forEach((chapter, index) => ...)` (lines
346-350): write each returned segment at its chapter id, skipping
falsy (missing or empty) segments. -/
def applyBatch (arr : List String) : List ChapterOutline → Nat → List String → List String
  | [], _, content => content
  | ch :: rest, idx, content =>
    let v := contentAt arr idx
    let content' := if v = "" then content else listSet content ch.id v
    applyBatch arr rest (idx + 1) content'

/-- Slices of at most `size` elements, in order (the
`for (i = 0; i < n; i += batchSize)` grouping); `fuel` bounds the
recursion and is the list length at the top call. -/
def toBatches (size : Nat) : Nat → List ChapterOutline → List (List ChapterOutline)
  | _, [] => []
  | 0, _ :: _ => []
  | fuel + 1, l => l.take size :: toBatches size fuel (l.drop size)

/-- A stage request issued to the generation client. -/
inductive StageReq where
  | outline
  | hookReq
  | chapters (ids : List Nat)
deriving DecidableEq, Repr

/-- Marking a job failed (lines 363-365). -/
def failJob (j : ScriptJob) (msg : String) : ScriptJob :=
  { j with status := JobStatus.FAILED, error := some msg, currentTask := some "Error!" }

/-- Step 1 (lines 307-318): request and parse the outline when the
raw outline text is missing; zero parsed chapters fail the job,
otherwise the outline artifacts are stored and the content list is
reset to `outlines.length + 1` empty slots. -/
def outlineStep (outlineResp : Except String String) (j : ScriptJob) :
    Except ScriptJob (ScriptJob × List StageReq) :=
  if j.rawOutlineText = "" then
    match outlineResp with
    | Except.error e => Except.error (failJob j e)
    | Except.ok raw =>
      let parsed := parseOutlineResponse raw
      if parsed.outlines.length = 0 then
        Except.error (failJob j "Failed to generate a valid outline.")
      else
        Except.ok
          ({ j with
              rawOutlineText := raw
              outlines := parsed.outlines
              refinedTitle := parsed.refinedTitle
              totalWords :=
                ((parsed.outlines.filter (fun o => 0 < o.id)).map (fun o => o.wordCount)).sum + 150
              chaptersContent := List.replicate (parsed.outlines.length + 1) "" },
            [StageReq.outline])
  else Except.ok (j, [])

/-- Step 2 (lines 320-327): request the hook when it is missing and
recompute the words written. -/
def hookStep (hookResp : Except String String) (j : ScriptJob) :
    Except ScriptJob (ScriptJob × List StageReq) :=
  if j.hook = "" then
    match hookResp with
    | Except.error e => Except.error (failJob j e)
    | Except.ok h =>
      Except.ok ({ j with hook := h, wordsWritten := countWords h }, [StageReq.hookReq])
  else Except.ok (j, [])

/-- Step 3 (lines 329-354): one chapter batch per loop iteration;
the response segments are spliced in positionally and the words
written recomputed; an error stops the loop and is reported. -/
def batchLoop (batchResp : List Nat → Except String (List String)) :
    List (List ChapterOutline) → ScriptJob → ScriptJob × List StageReq × Option String
  | [], j => (j, [], none)
  | b :: bs, j =>
    let ids := b.map (fun ch => ch.id)
    match batchResp ids with
    | Except.error e => (j, [StageReq.chapters ids], some e)
    | Except.ok arr =>
      let newContent := applyBatch arr b 0 j.chaptersContent
      let written := countWords j.hook + (newContent.map countWords).sum
      let r := batchLoop batchResp bs
        { j with chaptersContent := newContent, wordsWritten := written }
      (r.1, StageReq.chapters ids :: r.2.1, r.2.2)

/-- The stage-resumption body for one picked job (lines 301-370)
while the run-state stays RUNNING: mark it running, drive the
missing stages, and finish with DONE or FAILED.  The chapter filter
reads the content list destructured at entry (line 305), which step
1 does not reassign; the per-batch reads and writes go through the
store.  The second component is the trace of generation requests
issued. -/
def processQueueJob (outlineResp hookResp : Except String String)
    (batchResp : List Nat → Except String (List String)) (job0 : ScriptJob) :
    ScriptJob × List StageReq :=
  let origContent := job0.chaptersContent
  let j0 := { job0 with status := JobStatus.RUNNING }
  match outlineStep outlineResp j0 with
  | Except.error jf => (jf, [StageReq.outline])
  | Except.ok (j1, r1) =>
    match hookStep hookResp j1 with
    | Except.error jf => (jf, r1 ++ [StageReq.hookReq])
    | Except.ok (j2, r2) =>
      let chaptersToWrite :=
        j2.outlines.filter (fun o => 0 < o.id && contentAt origContent o.id = "")
      let batches := toBatches 3 chaptersToWrite.length chaptersToWrite
      let r := batchLoop batchResp batches j2
      match r.2.2 with
      | some e => (failJob r.1 e, r1 ++ r2 ++ r.2.1)
      | none =>
        ({ r.1 with status := JobStatus.DONE, currentTask := some "Completed!" },
          r1 ++ r2 ++ r.2.1)

/-- The chapter ids requested by a trace, in order. -/
def requestedIds (reqs : List StageReq) : List Nat :=
  (reqs.filterMap (fun r =>
    match r with
    | StageReq.chapters ids => some ids
    | _ => none)).flatten

/-- Queue-wide run-state (the `automationStatus` scalar). -/
inductive RunState where
  | IDLE
  | RUNNING
  | PAUSED
deriving DecidableEq, Repr

/-- The queue-wide state the STOP control touches. -/
structure AutomationState where
  runState : RunState
  jobs : List ScriptJob
deriving Repr

/-- What STOP does to one job (line 256): a RUNNING job fails with
the fixed stop message, any other job is untouched. -/
def stopJobUpdate (j : ScriptJob) : ScriptJob :=
  if j.status = JobStatus.RUNNING then
    { j with status := JobStatus.FAILED, error := some "Stopped by user.",
             currentTask := some "Stopped" }
  else j

/-- Model of the STOP branch of `handleAutomationControl` (lines
254-257): run-state to IDLE, every running job failed with the stop
message. -/
def handleAutomationControlStop (st : AutomationState) : AutomationState :=
  { st with runState := RunState.IDLE, jobs := st.jobs.map stopJobUpdate }

/-- Model of `checkStatus` (lines 291-299) once the pause polling
has ended: observing IDLE aborts the job through the stopped
failure path, otherwise processing continues. -/
def checkStatusModel (rs : RunState) : Except String Unit :=
  match rs with
  | RunState.IDLE => Except.error "Automation stopped by user."
  | _ => Except.ok ()

/-! ## Concrete fixtures used by witnesses -/

/-- A job resumed with outline and hook populated and chapter 2
already written. -/
def wjobResume : ScriptJob :=
  { id := "j1", title := "t", concept := "c", duration := 40, status := JobStatus.PENDING,
    createdAt := 0, error := none, rawOutlineText := "R", refinedTitle := "T",
    outlines := [⟨1, "a", 5, "x"⟩, ⟨2, "b", 5, "x"⟩, ⟨3, "c", 5, "x"⟩, ⟨4, "d", 5, "x"⟩],
    hook := "H", chaptersContent := ["", "", "done already"], currentTask := none,
    wordsWritten := 0, totalWords := 0 }

/-- A job whose single chapter batch will come back with no
segments. -/
def wjobMismatch : ScriptJob :=
  { id := "j2", title := "t", concept := "c", duration := 40, status := JobStatus.PENDING,
    createdAt := 0, error := none, rawOutlineText := "R", refinedTitle := "T",
    outlines := [⟨1, "a", 5, "x"⟩],
    hook := "H", chaptersContent := ["", ""], currentTask := none,
    wordsWritten := 0, totalWords := 0 }

/-- A batch oracle returning one nonempty segment per requested
chapter. -/
def wbatchOk : List Nat → Except String (List String) :=
  fun ids => Except.ok (ids.map (fun _ => "w"))

/-- A queue with one running and one pending job. -/
def wautoState : AutomationState :=
  ⟨RunState.RUNNING, [{ wjobResume with status := JobStatus.RUNNING }, wjobMismatch]⟩

/-! # Theorems -/

/-- Helper: with at least one credential the call goes through the
pacing gate, and the stamped timestamp equals the gate value. -/
theorem callGeminiApi_lastTs (apiKeys : List String) (oracle : Nat → Except String String)
    (now : Int) (st : ApiState) (h : apiKeys ≠ []) :
    (callGeminiApi apiKeys oracle now st).state.lastApiCallTimestamp =
      paceGate st.lastApiCallTimestamp now := by
  have hlen : ¬ apiKeys.length = 0 := by simpa using h
  simp only [callGeminiApi, hlen, if_false]
  split
  · rfl
  · split <;> rfl

/-- C2: two successive invoke calls on nonempty credential lists
have issue timestamps at least the fixed minimum spacing apart; the
issue timestamp is exactly the value stamped into the single shared
last-call state (stamped at issue, before the provider call
completes), and when the elapsed time since the shared timestamp is
below the minimum the call is delayed to exactly the previous
timestamp plus the minimum. -/
theorem c2_pacing_min_delay (apiKeys1 apiKeys2 : List String)
    (o1 o2 : Nat → Except String String) (now1 now2 : Int) (st : ApiState)
    (h1 : apiKeys1 ≠ []) (h2 : apiKeys2 ≠ []) :
    MIN_DELAY_BETWEEN_CALLS_MS ≤
      (callGeminiApi apiKeys2 o2 now2
          (callGeminiApi apiKeys1 o1 now1 st).state).state.lastApiCallTimestamp -
        (callGeminiApi apiKeys1 o1 now1 st).state.lastApiCallTimestamp ∧
    (callGeminiApi apiKeys1 o1 now1 st).state.lastApiCallTimestamp =
      paceGate st.lastApiCallTimestamp now1 ∧
    (now1 - st.lastApiCallTimestamp < MIN_DELAY_BETWEEN_CALLS_MS →
      (callGeminiApi apiKeys1 o1 now1 st).state.lastApiCallTimestamp =
        st.lastApiCallTimestamp + MIN_DELAY_BETWEEN_CALLS_MS) := by
  rw [callGeminiApi_lastTs apiKeys2 o2 now2 _ h2, callGeminiApi_lastTs apiKeys1 o1 now1 st h1]
  refine ⟨?_, rfl, ?_⟩
  · unfold paceGate
    split_ifs <;> omega
  · intro hlt
    unfold paceGate
    split_ifs <;> omega

/-- C2 witness: with one key and clock readings 3 and 100, the two
stamped issue timestamps are at least the minimum spacing apart. -/
theorem c2_witness :
    MIN_DELAY_BETWEEN_CALLS_MS ≤
      (callGeminiApi ["a"] (fun _ => Except.ok "r") 100
          (callGeminiApi ["a"] (fun _ => Except.ok "r") 3 ⟨0, 0⟩).state).state.lastApiCallTimestamp -
        (callGeminiApi ["a"] (fun _ => Except.ok "r") 3 ⟨0, 0⟩).state.lastApiCallTimestamp :=
  (c2_pacing_min_delay ["a"] ["a"] (fun _ => Except.ok "r") (fun _ => Except.ok "r")
    3 100 ⟨0, 0⟩ (by decide) (by decide)).1

/-- C9 counterexample: with the stored value "-1" and one
credential, the read index is -1, not a value of [0, 1); negative
stored values are not clamped. -/
theorem c9_counterexample :
    ¬ ∃ k : Nat, effectiveKeyIndex (some "-1") 1 = JSNum.int (k : Int) ∧ k < 1 := by
  rintro ⟨k, hk, -⟩
  have h : effectiveKeyIndex (some "-1") 1 = JSNum.int (-1) := by decide
  rw [h] at hk
  have := JSNum.int.inj hk
  omega

/-- C9 (amended): reading the stored index defaults to 0 when the
value is absent or empty, and the call-time clamp resets it to 0
exactly when it is at least the list length; hence whenever the
stored value parses to a nonnegative integer the effective index
lies in [0, len).  Negative or non-numeric stored values pass
through unclamped. -/
theorem c9_index_clamped_amended (stored : Option String) (len : Nat) (hlen : 0 < len)
    (i : Int) (hread : getCurrentKeyIndex stored = JSNum.int i) (hnn : 0 ≤ i) :
    ∃ k : Nat, effectiveKeyIndex stored len = JSNum.int (k : Int) ∧ k < len := by
  simp only [effectiveKeyIndex, hread, jsGeLen]
  split_ifs with hge
  · exact ⟨0, rfl, hlen⟩
  · refine ⟨i.toNat, ?_, ?_⟩
    · rw [Int.toNat_of_nonneg hnn]
    · simp only [decide_eq_true_eq] at hge
      omega

/-- C9 witness: stored "5" with three credentials reads back as an
in-range index. -/
theorem c9_witness :
    ∃ k : Nat, effectiveKeyIndex (some "5") 3 = JSNum.int (k : Int) ∧ k < 3 :=
  c9_index_clamped_amended (some "5") 3 (by decide) 5 (by decide) (by decide)

/-- C10: a chapter batch request for no chapters returns the empty
list at once: no access-layer call, no attempted credential, the
shared state untouched, and no possible failure even with an empty
key store. -/
theorem c10_empty_batch (apiKeys : List String) (oracle : Nat → Except String String)
    (now : Int) (st : ApiState) (text : String) :
    generateChapterBatch apiKeys oracle now st text [] = (Except.ok [], st, []) := rfl

/-- C7: the example outline parses to the refined title My Story
and exactly the two entries of the claim. -/
theorem c7_parse_example :
    parseOutlineResponse "Title: My Story\nChapter 0: The Hook\nIntro text\nChapter 1: Beginning\n(Word Count: 500 words)\nConcept: hero wakes up\n" =
      ⟨"My Story", [⟨0, "The Hook", 0, "Intro text"⟩, ⟨1, "Beginning", 500, "hero wakes up"⟩]⟩ := by
  decide

/-- C8: the outline parser is total, and the markerless input
yields the empty outline list with the placeholder title. -/
theorem c8_parser_total :
    (∀ text : String, ∃ r : ParsedOutline, parseOutlineResponse text = r) ∧
    parseOutlineResponse "garbage text with no markers" = ⟨"Untitled Story", []⟩ :=
  ⟨fun text => ⟨parseOutlineResponse text, rfl⟩, by decide⟩

/-- Helper: reading a mapped list at an in-range position. -/
theorem getD_map_of_lt {α β : Type} (f : α → β) :
    ∀ (l : List α) (i : Nat), i < l.length → ∀ (d : β) (d' : α),
      (l.map f).getD i d = f (l.getD i d') := by
  intro l
  induction l with
  | nil => intro i h; simp at h
  | cons a l ih =>
    intro i h d d'
    cases i with
    | zero => rfl
    | succ i => exact ih i (by simpa using h) d d'

/-- C6: the STOP control sets the run-state to IDLE and fails every
currently running job with the fixed stop message, leaving its
artifacts (raw outline, refined title, outlines, hook, chapter
contents) unchanged and leaving non-running jobs untouched; the
stop check aborts in-flight processing through the stopped failure
path. -/
theorem c6_stop_control (st : AutomationState) :
    (handleAutomationControlStop st).runState = RunState.IDLE ∧
    (handleAutomationControlStop st).jobs.length = st.jobs.length ∧
    (∀ i, i < st.jobs.length →
      ((st.jobs.getD i default).status = JobStatus.RUNNING →
        ((handleAutomationControlStop st).jobs.getD i default).status = JobStatus.FAILED ∧
        ((handleAutomationControlStop st).jobs.getD i default).error = some "Stopped by user." ∧
        ((handleAutomationControlStop st).jobs.getD i default).rawOutlineText =
          (st.jobs.getD i default).rawOutlineText ∧
        ((handleAutomationControlStop st).jobs.getD i default).refinedTitle =
          (st.jobs.getD i default).refinedTitle ∧
        ((handleAutomationControlStop st).jobs.getD i default).outlines =
          (st.jobs.getD i default).outlines ∧
        ((handleAutomationControlStop st).jobs.getD i default).hook =
          (st.jobs.getD i default).hook ∧
        ((handleAutomationControlStop st).jobs.getD i default).chaptersContent =
          (st.jobs.getD i default).chaptersContent) ∧
      ((st.jobs.getD i default).status ≠ JobStatus.RUNNING →
        (handleAutomationControlStop st).jobs.getD i default = st.jobs.getD i default)) ∧
    checkStatusModel RunState.IDLE = Except.error "Automation stopped by user." := by
  refine ⟨rfl, by simp [handleAutomationControlStop], fun i hi => ?_, rfl⟩
  have hmap : (handleAutomationControlStop st).jobs.getD i default =
      stopJobUpdate (st.jobs.getD i default) := by
    simpa [handleAutomationControlStop] using
      getD_map_of_lt stopJobUpdate st.jobs i hi default default
  constructor
  · intro hr
    rw [hmap]
    unfold stopJobUpdate
    rw [if_pos hr]
    exact ⟨rfl, rfl, rfl, rfl, rfl, rfl, rfl⟩
  · intro hr
    rw [hmap]
    unfold stopJobUpdate
    rw [if_neg hr]

/-- Helper: the failover loop tries the starting position first. -/
theorem keyLoop_head (o : Nat → Except String String) (len : Nat)
    (fuel k : Nat) (e0 : Option String) (hf : fuel ≠ 0) :
    (keyLoop o len fuel k e0).attempts.head? = some k := by
  cases fuel with
  | zero => exact absurd rfl hf
  | succ f =>
    simp only [keyLoop]
    cases h : o k with
    | ok r => rfl
    | error e => rfl

/-- Helper: the loop makes at most `fuel` attempts. -/
theorem keyLoop_length_le (o : Nat → Except String String) (len : Nat) :
    ∀ (fuel k : Nat) (e0 : Option String),
      (keyLoop o len fuel k e0).attempts.length ≤ fuel := by
  intro fuel
  induction fuel with
  | zero => intro k e0; simp [keyLoop]
  | succ f ih =>
    intro k e0
    cases h : o k with
    | ok r => simp [keyLoop, h]
    | error e =>
      simp only [keyLoop, h, List.length_cons]
      exact Nat.succ_le_succ (ih ((k + 1) % len) (some e))

/-- Helper: all attempted positions are below the list length. -/
theorem keyLoop_mem_lt (o : Nat → Except String String) (len : Nat) (hlen : 0 < len) :
    ∀ (fuel k : Nat) (e0 : Option String), k < len →
      ∀ j ∈ (keyLoop o len fuel k e0).attempts, j < len := by
  intro fuel
  induction fuel with
  | zero => intro k e0 hk j hj; simp [keyLoop] at hj
  | succ f ih =>
    intro k e0 hk j hj
    cases h : o k with
    | ok r =>
      simp only [keyLoop, h, List.mem_singleton] at hj
      exact hj ▸ hk
    | error e =>
      simp only [keyLoop, h, List.mem_cons] at hj
      rcases hj with rfl | hj
      · exact hk
      · exact ih ((k + 1) % len) (some e) (Nat.mod_lt _ hlen) j hj

/-- Helper: the attempted positions follow the rotation pattern
from the start position. -/
theorem keyLoop_pattern (o : Nat → Except String String) (len : Nat) (hlen : 0 < len) :
    ∀ (fuel k : Nat) (e0 : Option String), k < len →
      (keyLoop o len fuel k e0).attempts =
        (List.range (keyLoop o len fuel k e0).attempts.length).map (fun j => (k + j) % len) := by
  intro fuel
  induction fuel with
  | zero => intro k e0 hk; simp [keyLoop]
  | succ f ih =>
    intro k e0 hk
    cases h : o k with
    | ok r =>
      have h1 : List.range 1 = [0] := rfl
      simp [keyLoop, h, h1, Nat.mod_eq_of_lt hk]
    | error e =>
      have hk' : (k + 1) % len < len := Nat.mod_lt _ hlen
      have ihr := ih ((k + 1) % len) (some e) hk'
      have hcomp : ((fun j => (k + j) % len) ∘ Nat.succ) =
          (fun j => ((k + 1) % len + j) % len) := by
        funext j
        simp only [Function.comp_apply]
        rw [Nat.mod_add_mod]
        congr 1
        omega
      simp only [keyLoop, h, List.length_cons, List.range_succ_eq_map, List.map_cons,
        List.map_map, hcomp, Nat.add_zero, Nat.mod_eq_of_lt hk, List.cons.injEq]
      exact ⟨trivial, ihr⟩

/-- Helper: a success is on the last attempted position, with every
earlier attempt failing. -/
theorem keyLoop_success_facts (o : Nat → Except String String) (len : Nat) :
    ∀ (fuel k : Nat) (e0 : Option String) (p : Nat × String),
      (keyLoop o len fuel k e0).success = some p →
      o p.1 = Except.ok p.2 ∧
      ∃ pre, (keyLoop o len fuel k e0).attempts = pre ++ [p.1] ∧
        ∀ j ∈ pre, ∃ e, o j = Except.error e := by
  intro fuel
  induction fuel with
  | zero => intro k e0 p hp; simp [keyLoop] at hp
  | succ f ih =>
    intro k e0 p hp
    cases h : o k with
    | ok r =>
      simp only [keyLoop, h, Option.some.injEq] at hp
      subst hp
      exact ⟨h, [], by simp [keyLoop, h], by simp⟩
    | error e =>
      simp only [keyLoop, h] at hp
      obtain ⟨hok, pre, hat, herr⟩ := ih ((k + 1) % len) (some e) p hp
      refine ⟨hok, k :: pre, ?_, ?_⟩
      · simp [keyLoop, h, hat]
      · intro j hj
        rcases List.mem_cons.mp hj with rfl | hj
        · exact ⟨e, h⟩
        · exact herr j hj

/-- Helper: when the loop exhausts its fuel, it made exactly `fuel`
attempts and every one of them failed. -/
theorem keyLoop_none_facts (o : Nat → Except String String) (len : Nat) :
    ∀ (fuel k : Nat) (e0 : Option String),
      (keyLoop o len fuel k e0).success = none →
      (keyLoop o len fuel k e0).attempts.length = fuel ∧
      ∀ j ∈ (keyLoop o len fuel k e0).attempts, ∃ e, o j = Except.error e := by
  intro fuel
  induction fuel with
  | zero => intro k e0 _; exact ⟨by simp [keyLoop], by simp [keyLoop]⟩
  | succ f ih =>
    intro k e0 hnone
    cases h : o k with
    | ok r => simp [keyLoop, h] at hnone
    | error e =>
      simp only [keyLoop, h] at hnone ⊢
      obtain ⟨hlen, herr⟩ := ih ((k + 1) % len) (some e) hnone
      refine ⟨by simp [hlen], ?_⟩
      intro j hj
      rcases List.mem_cons.mp hj with rfl | hj
      · exact ⟨e, h⟩
      · exact herr j hj

/-- Helper: when every attempt fails, the recorded last error comes
from the last attempted position. -/
theorem keyLoop_lastError (o : Nat → Except String String) (len : Nat) (hlen : 0 < len) :
    ∀ (fuel k : Nat) (e0 : Option String), k < len → fuel ≠ 0 →
      (keyLoop o len fuel k e0).success = none →
      ∃ e, o ((k + (fuel - 1)) % len) = Except.error e ∧
        (keyLoop o len fuel k e0).lastError = some e := by
  intro fuel
  induction fuel with
  | zero => intro k e0 _ hf; exact absurd rfl hf
  | succ f ih =>
    intro k e0 hk _ hnone
    cases h : o k with
    | ok r => simp [keyLoop, h] at hnone
    | error e =>
      rcases Nat.eq_zero_or_pos f with rfl | hfpos
      · refine ⟨e, ?_, ?_⟩
        · simpa [Nat.mod_eq_of_lt hk] using h
        · simp [keyLoop, h]
      · have hk' : (k + 1) % len < len := Nat.mod_lt _ hlen
        have hnone' : (keyLoop o len f ((k + 1) % len) (some e)).success = none := by
          simpa [keyLoop, h] using hnone
        obtain ⟨e', he', hle⟩ := ih ((k + 1) % len) (some e) hk' (by omega) hnone'
        refine ⟨e', ?_, ?_⟩
        · have hidx : ((k + 1) % len + (f - 1)) % len = (k + (f + 1 - 1)) % len := by
            rw [Nat.mod_add_mod]
            congr 1
            omega
          rwa [hidx] at he'
        · simpa [keyLoop, h] using hle

/-- Helper: two rotation offsets below the length that land on the
same position are equal. -/
theorem rot_inj (len k i j : Nat) (hi : i < len) (hj : j < len)
    (h : (k + i) % len = (k + j) % len) : i = j := by
  have h1 : i % len = j % len := Nat.ModEq.add_left_cancel' k h
  rwa [Nat.mod_eq_of_lt hi, Nat.mod_eq_of_lt hj] at h1

/-- Helper: within at most one full wrap no position repeats. -/
theorem keyLoop_nodup (o : Nat → Except String String) (len : Nat) (hlen : 0 < len)
    (fuel k : Nat) (e0 : Option String) (hk : k < len) (hfuel : fuel ≤ len) :
    (keyLoop o len fuel k e0).attempts.Nodup := by
  rw [keyLoop_pattern o len hlen fuel k e0 hk]
  apply List.Nodup.map_on
  · intro x hx y hy hxy
    have hm : (keyLoop o len fuel k e0).attempts.length ≤ len :=
      le_trans (keyLoop_length_le o len fuel k e0) hfuel
    exact rot_inj len k x y (lt_of_lt_of_le (List.mem_range.mp hx) hm)
      (lt_of_lt_of_le (List.mem_range.mp hy) hm) hxy
  · exact List.nodup_range _

/-- Helper: the attempts of a call are those of the failover loop
started at the clamped stored index. -/
theorem callGeminiApi_attempts (apiKeys : List String) (oracle : Nat → Except String String)
    (now : Int) (st : ApiState) (h : apiKeys ≠ []) :
    (callGeminiApi apiKeys oracle now st).attempts =
      (keyLoop oracle apiKeys.length apiKeys.length
        (if st.storedIndex ≥ apiKeys.length then 0 else st.storedIndex) none).attempts := by
  have hlen0 : ¬ apiKeys.length = 0 := by simpa using h
  simp only [callGeminiApi, hlen0, if_false]
  split
  · rfl
  · split <;> rfl

/-- Helper: a success outcome is exactly a success of the loop. -/
theorem callGeminiApi_success_iff (apiKeys : List String) (oracle : Nat → Except String String)
    (now : Int) (st : ApiState) (k : Nat) (r : String) (h : apiKeys ≠ []) :
    (callGeminiApi apiKeys oracle now st).outcome = ApiOutcome.success k r ↔
      (keyLoop oracle apiKeys.length apiKeys.length
        (if st.storedIndex ≥ apiKeys.length then 0 else st.storedIndex) none).success =
        some (k, r) := by
  have hlen0 : ¬ apiKeys.length = 0 := by simpa using h
  simp only [callGeminiApi, hlen0, if_false]
  cases hs : (keyLoop oracle apiKeys.length apiKeys.length
      (if st.storedIndex ≥ apiKeys.length then 0 else st.storedIndex) none).success with
  | some p =>
    cases p with
    | mk a b => simp [hs]
  | none =>
    cases he : (keyLoop oracle apiKeys.length apiKeys.length
        (if st.storedIndex ≥ apiKeys.length then 0 else st.storedIndex) none).lastError with
    | some e => simp [hs, he]
    | none => simp [hs, he]

/-- Helper: on a loop success the call pins the stored index to the
succeeding position. -/
theorem callGeminiApi_state_of_success (apiKeys : List String)
    (oracle : Nat → Except String String) (now : Int) (st : ApiState) (k : Nat) (r : String)
    (h : apiKeys ≠ [])
    (hs : (keyLoop oracle apiKeys.length apiKeys.length
      (if st.storedIndex ≥ apiKeys.length then 0 else st.storedIndex) none).success =
        some (k, r)) :
    (callGeminiApi apiKeys oracle now st).state.storedIndex = k := by
  have hlen0 : ¬ apiKeys.length = 0 := by simpa using h
  simp only [callGeminiApi, hlen0, if_false, hs]

/-- Helper: when the loop fails with a recorded error the call ends
with the terminal message and keeps the stored index. -/
theorem callGeminiApi_failed (apiKeys : List String) (oracle : Nat → Except String String)
    (now : Int) (st : ApiState) (e : String) (h : apiKeys ≠ [])
    (hnone : (keyLoop oracle apiKeys.length apiKeys.length
      (if st.storedIndex ≥ apiKeys.length then 0 else st.storedIndex) none).success = none)
    (hle : (keyLoop oracle apiKeys.length apiKeys.length
      (if st.storedIndex ≥ apiKeys.length then 0 else st.storedIndex) none).lastError =
        some e) :
    (callGeminiApi apiKeys oracle now st).outcome =
      ApiOutcome.allFailed (ALL_FAILED_PREFIX ++ finalErrorMessage e) ∧
    (callGeminiApi apiKeys oracle now st).state.storedIndex = st.storedIndex := by
  have hlen0 : ¬ apiKeys.length = 0 := by simpa using h
  simp only [callGeminiApi, hlen0, if_false, hnone, hle]
  exact ⟨by trivial, by trivial⟩

/-- C1: on a nonempty credential list a single invoke starts
attempting at the stored index (clamped to 0 when it is at least
the list length), attempts each credential position at most once
(at most length-many attempts), and on the first success pins the
stored index to the position that worked and returns its response,
so a following invoke starts at that same position. -/
theorem c1_rotation_sticky (apiKeys : List String) (oracle : Nat → Except String String)
    (now : Int) (st : ApiState) (h : apiKeys ≠ []) :
    (callGeminiApi apiKeys oracle now st).attempts.Nodup ∧
    (callGeminiApi apiKeys oracle now st).attempts.length ≤ apiKeys.length ∧
    (callGeminiApi apiKeys oracle now st).attempts.head? =
      some (if st.storedIndex ≥ apiKeys.length then 0 else st.storedIndex) ∧
    (∀ k r, (callGeminiApi apiKeys oracle now st).outcome = ApiOutcome.success k r →
      oracle k = Except.ok r ∧
      (∃ pre, (callGeminiApi apiKeys oracle now st).attempts = pre ++ [k] ∧
        ∀ j ∈ pre, ∃ e, oracle j = Except.error e) ∧
      (callGeminiApi apiKeys oracle now st).state.storedIndex = k ∧
      ∀ (oracle2 : Nat → Except String String) (now2 : Int),
        (callGeminiApi apiKeys oracle2 now2
          (callGeminiApi apiKeys oracle now st).state).attempts.head? = some k) := by
  have hlen0 : ¬ apiKeys.length = 0 := by simpa using h
  have hlen : 0 < apiKeys.length := Nat.pos_of_ne_zero hlen0
  have hstart : (if st.storedIndex ≥ apiKeys.length then 0 else st.storedIndex) <
      apiKeys.length := by
    split
    · exact hlen
    · omega
  refine ⟨?_, ?_, ?_, ?_⟩
  · rw [callGeminiApi_attempts apiKeys oracle now st h]
    exact keyLoop_nodup oracle apiKeys.length hlen apiKeys.length _ none hstart le_rfl
  · rw [callGeminiApi_attempts apiKeys oracle now st h]
    exact keyLoop_length_le oracle apiKeys.length apiKeys.length _ none
  · rw [callGeminiApi_attempts apiKeys oracle now st h]
    exact keyLoop_head oracle apiKeys.length apiKeys.length _ none (by omega)
  · intro k r hkr
    have hs := (callGeminiApi_success_iff apiKeys oracle now st k r h).mp hkr
    obtain ⟨hok, pre, hat, herr⟩ :=
      keyLoop_success_facts oracle apiKeys.length apiKeys.length _ none (k, r) hs
    have hkmem : k ∈ (keyLoop oracle apiKeys.length apiKeys.length
        (if st.storedIndex ≥ apiKeys.length then 0 else st.storedIndex) none).attempts := by
      rw [hat]
      simp
    have hklt : k < apiKeys.length :=
      keyLoop_mem_lt oracle apiKeys.length hlen apiKeys.length _ none hstart k hkmem
    have hpin := callGeminiApi_state_of_success apiKeys oracle now st k r h hs
    refine ⟨hok, ⟨pre, ?_, herr⟩, hpin, ?_⟩
    · rw [callGeminiApi_attempts apiKeys oracle now st h]
      exact hat
    · intro oracle2 now2
      rw [callGeminiApi_attempts apiKeys oracle2 now2 _ h]
      rw [hpin]
      have hnotge : ¬ k ≥ apiKeys.length := by omega
      rw [if_neg hnotge]
      exact keyLoop_head oracle2 apiKeys.length apiKeys.length k none (by omega)

/-- C1 witness: two keys, stored index 5 (out of range, clamped to
0), the first key failing and the second succeeding: the call tries
positions 0 then 1, succeeds at 1, and pins the index there. -/
theorem c1_witness :
    (callGeminiApi ["a", "b"]
      (fun i => if i = 0 then Except.error "x" else Except.ok "resp") 0 ⟨5, 0⟩).attempts.Nodup ∧
    (callGeminiApi ["a", "b"]
      (fun i => if i = 0 then Except.error "x" else Except.ok "resp") 0 ⟨5, 0⟩).outcome =
      ApiOutcome.success 1 "resp" ∧
    (callGeminiApi ["a", "b"]
      (fun i => if i = 0 then Except.error "x" else Except.ok "resp") 0 ⟨5, 0⟩).state.storedIndex
      = 1 := by
  have h := c1_rotation_sticky ["a", "b"]
    (fun i => if i = 0 then Except.error "x" else Except.ok "resp") 0 ⟨5, 0⟩ (by decide)
  have hout : (callGeminiApi ["a", "b"]
      (fun i => if i = 0 then Except.error "x" else Except.ok "resp") 0 ⟨5, 0⟩).outcome =
      ApiOutcome.success 1 "resp" := by decide
  exact ⟨h.1, hout, ((h.2.2.2 1 "resp" hout).2.2.1)⟩

/-- C3: when every credential position fails, the call ends with
the terminal error carrying the last attempted position's error
message (run through the JSON extraction), after attempting every
position exactly once with no repeats; and the extraction replaces
the raw message exactly when it parses as JSON carrying a nonempty
nested error message, keeping the raw message when it is not
JSON. -/
theorem c3_all_failed (apiKeys : List String) (oracle : Nat → Except String String)
    (now : Int) (st : ApiState) (h : apiKeys ≠ [])
    (herr : ∀ i, i < apiKeys.length → ∃ e, oracle i = Except.error e) :
    (∃ e, oracle (((if st.storedIndex ≥ apiKeys.length then 0 else st.storedIndex) +
        (apiKeys.length - 1)) % apiKeys.length) = Except.error e ∧
      (callGeminiApi apiKeys oracle now st).outcome =
        ApiOutcome.allFailed (ALL_FAILED_PREFIX ++ finalErrorMessage e)) ∧
    (callGeminiApi apiKeys oracle now st).attempts.Nodup ∧
    (callGeminiApi apiKeys oracle now st).attempts.length = apiKeys.length ∧
    (callGeminiApi apiKeys oracle now st).state.storedIndex = st.storedIndex ∧
    (∀ s v ev m, jsonParse s = some v → jsLookup v "error" = some ev →
      jsLookup ev "message" = some (Json.str m) → m ≠ "" → finalErrorMessage s = m) ∧
    (∀ s, jsonParse s = none → finalErrorMessage s = s) := by
  have hlen0 : ¬ apiKeys.length = 0 := by simpa using h
  have hlen : 0 < apiKeys.length := Nat.pos_of_ne_zero hlen0
  have hstart : (if st.storedIndex ≥ apiKeys.length then 0 else st.storedIndex) <
      apiKeys.length := by
    split
    · exact hlen
    · omega
  have hnone : (keyLoop oracle apiKeys.length apiKeys.length
      (if st.storedIndex ≥ apiKeys.length then 0 else st.storedIndex) none).success = none := by
    cases hs : (keyLoop oracle apiKeys.length apiKeys.length
        (if st.storedIndex ≥ apiKeys.length then 0 else st.storedIndex) none).success with
    | none => rfl
    | some p =>
      exfalso
      obtain ⟨hok, pre, hat, -⟩ :=
        keyLoop_success_facts oracle apiKeys.length apiKeys.length _ none p hs
      have hmem : p.1 ∈ (keyLoop oracle apiKeys.length apiKeys.length
          (if st.storedIndex ≥ apiKeys.length then 0 else st.storedIndex) none).attempts := by
        rw [hat]
        simp
      have hlt := keyLoop_mem_lt oracle apiKeys.length hlen apiKeys.length _ none hstart p.1 hmem
      obtain ⟨e, he⟩ := herr p.1 hlt
      rw [hok] at he
      cases he
  obtain ⟨e, he, hle⟩ := keyLoop_lastError oracle apiKeys.length hlen apiKeys.length _ none
    hstart (by omega) hnone
  obtain ⟨hcnt, -⟩ := keyLoop_none_facts oracle apiKeys.length apiKeys.length _ none hnone
  obtain ⟨hout, hst⟩ := callGeminiApi_failed apiKeys oracle now st e h hnone hle
  refine ⟨⟨e, he, hout⟩, ?_, ?_, hst, ?_, ?_⟩
  · rw [callGeminiApi_attempts apiKeys oracle now st h]
    exact keyLoop_nodup oracle apiKeys.length hlen apiKeys.length _ none hstart le_rfl
  · rw [callGeminiApi_attempts apiKeys oracle now st h]
    exact hcnt
  · intro s v ev m hp hev hm hne
    simp only [finalErrorMessage, hp, hev, hm]
    simp [jsTruthy, jsDisplay, hne]
  · intro s hp
    simp [finalErrorMessage, hp]

/-- C3 witness: both of two keys fail, the last error being a JSON
payload whose nested message is extracted into the terminal
error. -/
theorem c3_witness :
    (∃ e, (fun i => if i = 0 then Except.error "plain"
        else Except.error "\x7b\"error\":\x7b\"message\":\"quota\"\x7d\x7d" :
        Nat → Except String String) ((0 + (2 - 1)) % 2) = Except.error e ∧
      (callGeminiApi ["a", "b"]
        (fun i => if i = 0 then Except.error "plain"
          else Except.error "\x7b\"error\":\x7b\"message\":\"quota\"\x7d\x7d") 0
        ⟨0, 0⟩).outcome = ApiOutcome.allFailed (ALL_FAILED_PREFIX ++ finalErrorMessage e)) ∧
    (callGeminiApi ["a", "b"]
      (fun i => if i = 0 then Except.error "plain"
        else Except.error "\x7b\"error\":\x7b\"message\":\"quota\"\x7d\x7d") 0
      ⟨0, 0⟩).outcome =
      ApiOutcome.allFailed "All API keys failed. Last error: quota" := by
  have h := c3_all_failed ["a", "b"]
    (fun i => if i = 0 then Except.error "plain"
      else Except.error "\x7b\"error\":\x7b\"message\":\"quota\"\x7d\x7d") 0 ⟨0, 0⟩
    (by decide)
    (fun i hi => by
      have hi2 : i < 2 := by simpa using hi
      match i, hi2 with
      | 0, _ => exact ⟨"plain", rfl⟩
      | 1, _ => exact ⟨"\x7b\"error\":\x7b\"message\":\"quota\"\x7d\x7d", rfl⟩
      | n + 2, h2 => exact absurd h2 (by omega))
  refine ⟨h.1, by decide⟩

/-- Helper: reading back the slot just written. -/
theorem contentAt_listSet_self : ∀ (i : Nat) (l : List String) (v : String),
    contentAt (listSet l i v) i = v := by
  intro i
  induction i with
  | zero =>
    intro l v
    cases l with
    | nil => rfl
    | cons x xs => rfl
  | succ n ih =>
    intro l v
    cases l with
    | nil =>
      show contentAt ("" :: listSet [] n v) (n + 1) = v
      simpa [contentAt, List.getD_cons_succ] using ih [] v
    | cons x xs =>
      simpa [listSet, contentAt, List.getD_cons_succ] using ih xs v

/-- Helper: a write leaves every other slot unchanged. -/
theorem contentAt_listSet_ne : ∀ (i : Nat) (l : List String) (j : Nat) (v : String),
    j ≠ i → contentAt (listSet l i v) j = contentAt l j := by
  intro i
  induction i with
  | zero =>
    intro l j v hj
    cases l with
    | nil =>
      cases j with
      | zero => exact absurd rfl hj
      | succ n => simp [listSet, contentAt]
    | cons x xs =>
      cases j with
      | zero => exact absurd rfl hj
      | succ n => simp [listSet, contentAt]
  | succ m ih =>
    intro l j v hj
    cases l with
    | nil =>
      cases j with
      | zero => rfl
      | succ n =>
        show contentAt ("" :: listSet [] m v) (n + 1) = contentAt [] (n + 1)
        have h1 := ih [] n v (by omega)
        simp only [contentAt, List.getD_cons_succ]
        simpa [contentAt] using h1
    | cons x xs =>
      cases j with
      | zero => rfl
      | succ n =>
        show contentAt (x :: listSet xs m v) (n + 1) = contentAt (x :: xs) (n + 1)
        simp only [contentAt, List.getD_cons_succ]
        exact ih xs n v (by omega)

/-- Helper: splicing a batch does not touch ids outside the batch. -/
theorem applyBatch_not_mem (arr : List String) :
    ∀ (batch : List ChapterOutline) (idx : Nat) (c : List String) (j : Nat),
      (∀ ch ∈ batch, ch.id ≠ j) →
      contentAt (applyBatch arr batch idx c) j = contentAt c j := by
  intro batch
  induction batch with
  | nil => intro idx c j _; rfl
  | cons ch rest ih =>
    intro idx c j hj
    simp only [applyBatch]
    have hrest : ∀ x ∈ rest, x.id ≠ j := fun x hx => hj x (List.mem_cons_of_mem ch hx)
    by_cases hv : contentAt arr idx = ""
    · rw [if_pos hv]
      exact ih (idx + 1) c j hrest
    · rw [if_neg hv]
      rw [ih (idx + 1) (listSet c ch.id (contentAt arr idx)) j hrest]
      exact contentAt_listSet_ne ch.id c j (contentAt arr idx)
        (fun hji => (hj ch (List.mem_cons_self ch rest)) hji.symm)

/-- Helper: splicing never erases an already nonempty slot. -/
theorem applyBatch_preserves_nonempty (arr : List String) :
    ∀ (batch : List ChapterOutline) (idx : Nat) (c : List String) (j : Nat),
      contentAt c j ≠ "" → contentAt (applyBatch arr batch idx c) j ≠ "" := by
  intro batch
  induction batch with
  | nil => intro idx c j hc; exact hc
  | cons ch rest ih =>
    intro idx c j hc
    simp only [applyBatch]
    by_cases hv : contentAt arr idx = ""
    · rw [if_pos hv]
      exact ih (idx + 1) c j hc
    · rw [if_neg hv]
      apply ih
      by_cases hji : j = ch.id
      · subst hji
        rw [contentAt_listSet_self]
        exact hv
      · rw [contentAt_listSet_ne ch.id c j _ hji]
        exact hc

/-- Helper: when every segment of the batch is nonempty, every
chapter of the batch ends up with nonempty content. -/
theorem applyBatch_fills (arr : List String) :
    ∀ (batch : List ChapterOutline) (idx : Nat) (c : List String),
      (∀ t, t < batch.length → contentAt arr (idx + t) ≠ "") →
      ∀ ch ∈ batch, contentAt (applyBatch arr batch idx c) ch.id ≠ "" := by
  intro batch
  induction batch with
  | nil => intro idx c _ ch hch; simp at hch
  | cons ch0 rest ih =>
    intro idx c harr ch hch
    rcases List.mem_cons.mp hch with rfl | hch
    · have hv : contentAt arr idx ≠ "" := by simpa using harr 0 (by simp)
      simp only [applyBatch, if_neg hv]
      apply applyBatch_preserves_nonempty
      rw [contentAt_listSet_self]
      exact hv
    · have harr' : ∀ t, t < rest.length → contentAt arr (idx + 1 + t) ≠ "" := by
        intro t ht
        have h1 := harr (t + 1) (by simpa using Nat.succ_lt_succ ht)
        have h2 : idx + (t + 1) = idx + 1 + t := by omega
        rwa [h2] at h1
      simp only [applyBatch]
      exact ih (idx + 1) _ harr' ch hch

/-- Helper: the chapter loop does not change any job field other
than the content list and the progress counter. -/
theorem batchLoop_fields (bO : List Nat → Except String (List String)) :
    ∀ (bs : List (List ChapterOutline)) (j : ScriptJob),
      (batchLoop bO bs j).1.hook = j.hook ∧
      (batchLoop bO bs j).1.outlines = j.outlines ∧
      (batchLoop bO bs j).1.rawOutlineText = j.rawOutlineText ∧
      (batchLoop bO bs j).1.refinedTitle = j.refinedTitle ∧
      (batchLoop bO bs j).1.status = j.status := by
  intro bs
  induction bs with
  | nil => intro j; exact ⟨rfl, rfl, rfl, rfl, rfl⟩
  | cons b bs ih =>
    intro j
    simp only [batchLoop]
    cases hb : bO (b.map (fun ch => ch.id)) with
    | error e => exact ⟨rfl, rfl, rfl, rfl, rfl⟩
    | ok arr => exact ih _

/-- Helper: with an oracle that always answers, the loop issues one
request per batch, in order, and reports no error. -/
theorem batchLoop_reqs_ok (bO : List Nat → Except String (List String))
    (hb : ∀ ids, ∃ cs, bO ids = Except.ok cs) :
    ∀ (bs : List (List ChapterOutline)) (j : ScriptJob),
      (batchLoop bO bs j).2.2 = none ∧
      (batchLoop bO bs j).2.1 =
        bs.map (fun b => StageReq.chapters (b.map (fun ch => ch.id))) := by
  intro bs
  induction bs with
  | nil => intro j; exact ⟨rfl, rfl⟩
  | cons b bs ih =>
    intro j
    obtain ⟨cs, hcs⟩ := hb (b.map (fun ch => ch.id))
    simp only [batchLoop, hcs]
    obtain ⟨h1, h2⟩ := ih { j with
      chaptersContent := applyBatch cs b 0 j.chaptersContent,
      wordsWritten := countWords j.hook +
        ((applyBatch cs b 0 j.chaptersContent).map countWords).sum }
    exact ⟨h1, by simp [h2]⟩

/-- Helper: the loop leaves the content of ids outside every batch
unchanged. -/
theorem batchLoop_not_mem (bO : List Nat → Except String (List String)) :
    ∀ (bs : List (List ChapterOutline)) (j : ScriptJob) (i : Nat),
      (∀ b ∈ bs, ∀ ch ∈ b, ch.id ≠ i) →
      contentAt (batchLoop bO bs j).1.chaptersContent i = contentAt j.chaptersContent i := by
  intro bs
  induction bs with
  | nil => intro j i _; rfl
  | cons b bs ih =>
    intro j i hid
    simp only [batchLoop]
    cases hb : bO (b.map (fun ch => ch.id)) with
    | error e => rfl
    | ok arr =>
      rw [ih _ i (fun b' hb' => hid b' (List.mem_cons_of_mem b hb'))]
      exact applyBatch_not_mem arr b 0 j.chaptersContent i
        (hid b (List.mem_cons_self b bs))

/-- Helper: the loop never erases a nonempty slot. -/
theorem batchLoop_preserves_nonempty (bO : List Nat → Except String (List String)) :
    ∀ (bs : List (List ChapterOutline)) (j : ScriptJob) (i : Nat),
      contentAt j.chaptersContent i ≠ "" →
      contentAt (batchLoop bO bs j).1.chaptersContent i ≠ "" := by
  intro bs
  induction bs with
  | nil => intro j i hc; exact hc
  | cons b bs ih =>
    intro j i hc
    simp only [batchLoop]
    cases hb : bO (b.map (fun ch => ch.id)) with
    | error e => exact hc
    | ok arr =>
      exact ih _ i (applyBatch_preserves_nonempty arr b 0 j.chaptersContent i hc)

/-- Helper: an in-range default read is a member. -/
theorem getD_mem_of_lt : ∀ (l : List String) (i : Nat), i < l.length → l.getD i "" ∈ l := by
  intro l
  induction l with
  | nil => intro i hi; simp at hi
  | cons x xs ih =>
    intro i hi
    cases i with
    | zero => simp
    | succ n =>
      simp only [List.getD_cons_succ]
      exact List.mem_cons_of_mem x (ih n (by simpa using hi))

/-- Helper: when every batch answer has one nonempty segment per
requested chapter, every chapter of every batch ends up with
nonempty content. -/
theorem batchLoop_fills (bO : List Nat → Except String (List String))
    (hb : ∀ ids, ∃ cs, bO ids = Except.ok cs ∧ cs.length = ids.length ∧ ∀ c ∈ cs, c ≠ "") :
    ∀ (bs : List (List ChapterOutline)) (j : ScriptJob) (ch : ChapterOutline),
      (∃ b ∈ bs, ch ∈ b) →
      contentAt (batchLoop bO bs j).1.chaptersContent ch.id ≠ "" := by
  intro bs
  induction bs with
  | nil => intro j ch hmem; simp at hmem
  | cons b bs ih =>
    intro j ch hmem
    obtain ⟨cs, hcs, hclen, hcne⟩ := hb (b.map (fun ch => ch.id))
    have hclen' : cs.length = b.length := by simpa using hclen
    simp only [batchLoop, hcs]
    rcases hmem with ⟨b', hb', hch⟩
    rcases List.mem_cons.mp hb' with rfl | hb'
    · apply batchLoop_preserves_nonempty
      apply applyBatch_fills cs b' 0 j.chaptersContent
      · intro t ht
        simp only [Nat.zero_add]
        exact hcne (cs.getD t "") (getD_mem_of_lt cs t (by omega))
      · exact hch
    · exact ih _ ch ⟨b', hb', hch⟩

/-- Helper: chopping into batches and flattening is the identity. -/
theorem toBatches_flatten (s : Nat) (hs : 0 < s) :
    ∀ (fuel : Nat) (l : List ChapterOutline), l.length ≤ fuel →
      (toBatches s fuel l).flatten = l := by
  intro fuel
  induction fuel with
  | zero =>
    intro l hl
    have hnil : l = [] := List.eq_nil_of_length_eq_zero (by omega)
    subst hnil
    rfl
  | succ f ih =>
    intro l hl
    cases l with
    | nil => rfl
    | cons x xs =>
      have hlen2 : ((x :: xs).drop s).length ≤ f := by
        simp only [List.length_drop]
        simp only [List.length_cons] at hl ⊢
        omega
      simp only [toBatches, List.flatten_cons]
      rw [ih _ hlen2, List.take_append_drop]

/-- Helper: the ids requested by the per-batch request trace. -/
theorem requestedIds_chapters (bs : List (List ChapterOutline)) :
    requestedIds (bs.map (fun b => StageReq.chapters (b.map (fun ch => ch.id)))) =
      (bs.flatten).map (fun ch => ch.id) := by
  unfold requestedIds
  rw [List.filterMap_map]
  have hcomp : ((fun r => match r with
      | StageReq.chapters ids => some ids
      | _ => none) ∘ (fun b : List ChapterOutline => StageReq.chapters (b.map (fun ch => ch.id))))
      = (some ∘ (fun b : List ChapterOutline => b.map (fun ch => ch.id))) := by
    funext b
    rfl
  rw [hcomp, List.filterMap_eq_map, List.map_flatten]

/-- C4: a job resumed with outline and hook already populated never
re-requests the outline or hook stage; it requests exactly the
chapters whose content is empty, in outline order and grouped into
batches, hence in ascending id order whenever the outline ids
ascend; and it leaves every already populated chapter slot
unchanged. -/
theorem c4_resume_missing_only (job0 : ScriptJob) (oO hO : Except String String)
    (bO : List Nat → Except String (List String))
    (h1 : job0.rawOutlineText ≠ "") (h2 : job0.hook ≠ "")
    (h3 : ∀ ids, ∃ cs, bO ids = Except.ok cs) :
    (StageReq.outline ∉ (processQueueJob oO hO bO job0).2 ∧
     StageReq.hookReq ∉ (processQueueJob oO hO bO job0).2) ∧
    requestedIds (processQueueJob oO hO bO job0).2 =
      (job0.outlines.filter
        (fun o => 0 < o.id && contentAt job0.chaptersContent o.id = "")).map
        (fun o => o.id) ∧
    (List.Pairwise (fun a b => a.id < b.id) job0.outlines →
      List.Pairwise (fun a b => a < b) (requestedIds (processQueueJob oO hO bO job0).2)) ∧
    (∀ i, contentAt job0.chaptersContent i ≠ "" →
      contentAt (processQueueJob oO hO bO job0).1.chaptersContent i =
        contentAt job0.chaptersContent i) := by
  have hstep1 : outlineStep oO { job0 with status := JobStatus.RUNNING } =
      Except.ok ({ job0 with status := JobStatus.RUNNING }, []) := by
    simp [outlineStep, h1]
  have hstep2 : hookStep hO { job0 with status := JobStatus.RUNNING } =
      Except.ok ({ job0 with status := JobStatus.RUNNING }, []) := by
    simp [hookStep, h2]
  obtain ⟨hno, hreqs⟩ := batchLoop_reqs_ok bO h3
    (toBatches 3
      (job0.outlines.filter
        (fun o => 0 < o.id && contentAt job0.chaptersContent o.id = "")).length
      (job0.outlines.filter
        (fun o => 0 < o.id && contentAt job0.chaptersContent o.id = "")))
    { job0 with status := JobStatus.RUNNING }
  have hshape : processQueueJob oO hO bO job0 =
      ({ (batchLoop bO
          (toBatches 3
            (job0.outlines.filter
              (fun o => 0 < o.id && contentAt job0.chaptersContent o.id = "")).length
            (job0.outlines.filter
              (fun o => 0 < o.id && contentAt job0.chaptersContent o.id = "")))
          { job0 with status := JobStatus.RUNNING }).1
          with status := JobStatus.DONE, currentTask := some "Completed!" },
        (batchLoop bO
          (toBatches 3
            (job0.outlines.filter
              (fun o => 0 < o.id && contentAt job0.chaptersContent o.id = "")).length
            (job0.outlines.filter
              (fun o => 0 < o.id && contentAt job0.chaptersContent o.id = "")))
          { job0 with status := JobStatus.RUNNING }).2.1) := by
    simp only [processQueueJob, hstep1, hstep2, List.nil_append]
    rw [hno]
  rw [hshape]
  refine ⟨⟨?_, ?_⟩, ?_, ?_, ?_⟩
  · rw [hreqs]
    intro hmem
    obtain ⟨b, -, hb⟩ := List.mem_map.mp hmem
    exact StageReq.noConfusion hb
  · rw [hreqs]
    intro hmem
    obtain ⟨b, -, hb⟩ := List.mem_map.mp hmem
    exact StageReq.noConfusion hb
  · rw [hreqs, requestedIds_chapters, toBatches_flatten 3 (by omega) _ _ le_rfl]
  · intro hpw
    rw [hreqs, requestedIds_chapters, toBatches_flatten 3 (by omega) _ _ le_rfl,
      List.pairwise_map]
    exact hpw.filter _
  · intro i hi
    have hids : ∀ b ∈ toBatches 3
        (job0.outlines.filter
          (fun o => 0 < o.id && contentAt job0.chaptersContent o.id = "")).length
        (job0.outlines.filter
          (fun o => 0 < o.id && contentAt job0.chaptersContent o.id = "")),
        ∀ ch ∈ b, ch.id ≠ i := by
      intro b hbm ch hch hid
      have hchtw : ch ∈ job0.outlines.filter
          (fun o => 0 < o.id && contentAt job0.chaptersContent o.id = "") := by
        have hfl : ch ∈ (toBatches 3
            (job0.outlines.filter
              (fun o => 0 < o.id && contentAt job0.chaptersContent o.id = "")).length
            (job0.outlines.filter
              (fun o => 0 < o.id && contentAt job0.chaptersContent o.id = ""))).flatten :=
          List.mem_flatten.mpr ⟨b, hbm, hch⟩
        rwa [toBatches_flatten 3 (by omega) _ _ le_rfl] at hfl
      have hpred := (List.mem_filter.mp hchtw).2
      simp only [Bool.and_eq_true, decide_eq_true_eq] at hpred
      rw [hid] at hpred
      exact hi hpred.2
    have hpres := batchLoop_not_mem bO _ { job0 with status := JobStatus.RUNNING } i hids
    simpa using hpres

/-- C4 witness: outline and hook populated, chapter 2 already
written, chapters 1, 3, 4 missing: exactly [1, 3, 4] is requested
and chapter 2 keeps its content. -/
theorem c4_witness :
    requestedIds (processQueueJob (Except.error "no") (Except.error "no") wbatchOk
      wjobResume).2 = [1, 3, 4] ∧
    contentAt (processQueueJob (Except.error "no") (Except.error "no") wbatchOk
      wjobResume).1.chaptersContent 2 = "done already" := by
  have h := c4_resume_missing_only wjobResume (Except.error "no") (Except.error "no") wbatchOk
    (by decide) (by decide) (fun ids => ⟨ids.map (fun _ => "w"), rfl⟩)
  constructor
  · rw [h.2.1]
    decide
  · rw [h.2.2.2 2 (by decide)]
    decide

/-- Helper: after the chapter loop over the missing chapters, the
hook and outlines are untouched and every positive-id chapter holds
nonempty content, provided batch answers are complete and nonempty
and chapters skipped by the filter already held content. -/
theorem tail_props (bO : List Nat → Except String (List String))
    (hb : ∀ ids, ∃ cs, bO ids = Except.ok cs ∧ cs.length = ids.length ∧ ∀ c ∈ cs, c ≠ "")
    (j2 : ScriptJob) (origContent : List String)
    (hOK : ∀ o, o ∈ j2.outlines → 0 < o.id → contentAt origContent o.id ≠ "" →
      contentAt j2.chaptersContent o.id ≠ "") :
    (batchLoop bO (toBatches 3
      (j2.outlines.filter (fun o => 0 < o.id && contentAt origContent o.id = "")).length
      (j2.outlines.filter (fun o => 0 < o.id && contentAt origContent o.id = ""))) j2).1.hook
      = j2.hook ∧
    (batchLoop bO (toBatches 3
      (j2.outlines.filter (fun o => 0 < o.id && contentAt origContent o.id = "")).length
      (j2.outlines.filter (fun o => 0 < o.id && contentAt origContent o.id = ""))) j2).1.outlines
      = j2.outlines ∧
    ∀ o, o ∈ j2.outlines → 0 < o.id →
      contentAt (batchLoop bO (toBatches 3
        (j2.outlines.filter (fun o => 0 < o.id && contentAt origContent o.id = "")).length
        (j2.outlines.filter
          (fun o => 0 < o.id && contentAt origContent o.id = ""))) j2).1.chaptersContent o.id
        ≠ "" := by
  obtain ⟨hhk, hout, -, -, -⟩ := batchLoop_fields bO (toBatches 3
    (j2.outlines.filter (fun o => 0 < o.id && contentAt origContent o.id = "")).length
    (j2.outlines.filter (fun o => 0 < o.id && contentAt origContent o.id = ""))) j2
  refine ⟨hhk, hout, ?_⟩
  intro o ho hid
  by_cases hc : contentAt origContent o.id = ""
  · apply batchLoop_fills bO hb
    have htw : o ∈ j2.outlines.filter
        (fun o => 0 < o.id && contentAt origContent o.id = "") := by
      rw [List.mem_filter]
      exact ⟨ho, by simp [hid, hc]⟩
    have hfl : o ∈ (toBatches 3
        (j2.outlines.filter (fun o => 0 < o.id && contentAt origContent o.id = "")).length
        (j2.outlines.filter
          (fun o => 0 < o.id && contentAt origContent o.id = ""))).flatten := by
      rw [toBatches_flatten 3 (by omega) _ _ le_rfl]
      exact htw
    exact List.mem_flatten.mp hfl
  · exact batchLoop_preserves_nonempty bO _ j2 o.id (hOK o ho hid hc)

/-- Helper: when both early stages answer and every batch answers,
the processed job completes DONE with the loop result, and carries
the hook, outlines and filled chapter contents of the post-hook
job. -/
theorem processQueueJob_done_props (oO hO : Except String String)
    (bO : List Nat → Except String (List String)) (job0 J1 J2 : ScriptJob)
    (r1 r2 : List StageReq)
    (hstep1 : outlineStep oO { job0 with status := JobStatus.RUNNING } = Except.ok (J1, r1))
    (hstep2 : hookStep hO J1 = Except.ok (J2, r2))
    (hb : ∀ ids, ∃ cs, bO ids = Except.ok cs ∧ cs.length = ids.length ∧ ∀ c ∈ cs, c ≠ "")
    (hOK : ∀ o, o ∈ J2.outlines → 0 < o.id → contentAt job0.chaptersContent o.id ≠ "" →
      contentAt J2.chaptersContent o.id ≠ "") :
    (processQueueJob oO hO bO job0).1.status = JobStatus.DONE ∧
    (processQueueJob oO hO bO job0).1.hook = J2.hook ∧
    (processQueueJob oO hO bO job0).1.outlines = J2.outlines ∧
    ∀ o, o ∈ J2.outlines → 0 < o.id →
      contentAt (processQueueJob oO hO bO job0).1.chaptersContent o.id ≠ "" := by
  have hb' : ∀ ids, ∃ cs, bO ids = Except.ok cs := by
    intro ids
    obtain ⟨cs, hcs, -, -⟩ := hb ids
    exact ⟨cs, hcs⟩
  obtain ⟨hno, -⟩ := batchLoop_reqs_ok bO hb'
    (toBatches 3
      (J2.outlines.filter (fun o => 0 < o.id && contentAt job0.chaptersContent o.id = "")).length
      (J2.outlines.filter (fun o => 0 < o.id && contentAt job0.chaptersContent o.id = ""))) J2
  have hsh : (processQueueJob oO hO bO job0).1 =
      { (batchLoop bO (toBatches 3
          (J2.outlines.filter
            (fun o => 0 < o.id && contentAt job0.chaptersContent o.id = "")).length
          (J2.outlines.filter
            (fun o => 0 < o.id && contentAt job0.chaptersContent o.id = ""))) J2).1
        with status := JobStatus.DONE, currentTask := some "Completed!" } := by
    simp only [processQueueJob, hstep1, hstep2, hno]
  obtain ⟨hph, hpo2, hpc⟩ := tail_props bO hb J2 job0.chaptersContent hOK
  rw [hsh]
  refine ⟨rfl, ?_, ?_, ?_⟩
  · simpa using hph
  · simpa using hpo2
  · intro o ho hid
    simpa using hpc o ho hid

/-- C5 counterexample: a single-chapter job whose batch answer has
no segments still finishes with status DONE while its only chapter
(id 1, so ids 1..N with N = 1) has empty content, refuting the
stated invariant. -/
theorem c5_counterexample :
    (processQueueJob (Except.error "no") (Except.error "no") (fun _ => Except.ok [])
      wjobMismatch).1.status = JobStatus.DONE ∧
    (processQueueJob (Except.error "no") (Except.error "no") (fun _ => Except.ok [])
      wjobMismatch).1.outlines = [⟨1, "a", 5, "x"⟩] ∧
    contentAt (processQueueJob (Except.error "no") (Except.error "no") (fun _ => Except.ok [])
      wjobMismatch).1.chaptersContent 1 = "" ∧
    (processQueueJob (Except.error "no") (Except.error "no") (fun _ => Except.ok [])
      wjobMismatch).1.hook ≠ "" := by
  decide

/-- C5 (amended): status DONE implies a nonempty hook and nonempty
content for every positive-id outline entry, provided every batch
answer carries exactly one nonempty segment per requested chapter
(the code accepts short or empty segments and still marks DONE,
which the counterexample exhibits), the hook response is nonempty,
and a job without outline text has no chapter content yet. -/
theorem c5_done_invariant_amended (job0 : ScriptJob) (oO hO : Except String String)
    (bO : List Nat → Except String (List String))
    (hb : ∀ ids, ∃ cs, bO ids = Except.ok cs ∧ cs.length = ids.length ∧ ∀ c ∈ cs, c ≠ "")
    (hh : ∀ s, hO = Except.ok s → s ≠ "")
    (hfresh : job0.rawOutlineText = "" → ∀ i, contentAt job0.chaptersContent i = "")
    (hdone : (processQueueJob oO hO bO job0).1.status = JobStatus.DONE) :
    (processQueueJob oO hO bO job0).1.hook ≠ "" ∧
    ∀ o ∈ (processQueueJob oO hO bO job0).1.outlines, 0 < o.id →
      contentAt (processQueueJob oO hO bO job0).1.chaptersContent o.id ≠ "" := by
  by_cases hraw : job0.rawOutlineText = ""
  · cases oO with
    | error e =>
      exfalso
      have hsh : (processQueueJob (Except.error e) hO bO job0).1 =
          failJob { job0 with status := JobStatus.RUNNING } e := by
        simp [processQueueJob, outlineStep, hraw]
      rw [hsh] at hdone
      simp [failJob] at hdone
    | ok raw =>
      by_cases hpo : (parseOutlineResponse raw).outlines.length = 0
      · exfalso
        have hsh : (processQueueJob (Except.ok raw) hO bO job0).1 =
            failJob { job0 with status := JobStatus.RUNNING }
              "Failed to generate a valid outline." := by
          simp [processQueueJob, outlineStep, hraw, hpo]
        rw [hsh] at hdone
        simp [failJob] at hdone
      · set J1 : ScriptJob := { job0 with
          status := JobStatus.RUNNING
          rawOutlineText := raw
          outlines := (parseOutlineResponse raw).outlines
          refinedTitle := (parseOutlineResponse raw).refinedTitle
          totalWords := (((parseOutlineResponse raw).outlines.filter
            (fun o => 0 < o.id)).map (fun o => o.wordCount)).sum + 150
          chaptersContent :=
            List.replicate ((parseOutlineResponse raw).outlines.length + 1) "" } with hJ1
        have hstep1 : outlineStep (Except.ok raw) { job0 with status := JobStatus.RUNNING } =
            Except.ok (J1, [StageReq.outline]) := by
          rw [hJ1]
          simp [outlineStep, hraw, hpo]
        have hJ1hook : J1.hook = job0.hook := by rw [hJ1]
        have hOK0 : ∀ (X : ScriptJob), ∀ o, o ∈ X.outlines → 0 < o.id →
            contentAt job0.chaptersContent o.id ≠ "" →
            contentAt X.chaptersContent o.id ≠ "" := by
          intro X o _ _ hcon
          exact absurd (hfresh hraw o.id) hcon
        by_cases hhk : job0.hook = ""
        · cases hO with
          | error e2 =>
            exfalso
            have hsh : (processQueueJob (Except.ok raw) (Except.error e2) bO job0).1 =
                failJob J1 e2 := by
              simp only [processQueueJob, hstep1]
              simp [hookStep, hhk]
            rw [hsh] at hdone
            simp [failJob] at hdone
          | ok s =>
            have hs := hh s rfl
            have hstep2 : hookStep (Except.ok s) J1 =
                Except.ok ({ J1 with hook := s, wordsWritten := countWords s },
                  [StageReq.hookReq]) := by
              simp [hookStep, hhk]
            obtain ⟨hst, hph, hpo2, hpc⟩ := processQueueJob_done_props (Except.ok raw)
              (Except.ok s) bO job0 J1 { J1 with hook := s, wordsWritten := countWords s }
              [StageReq.outline] [StageReq.hookReq] hstep1 hstep2 hb
              (hOK0 { J1 with hook := s, wordsWritten := countWords s })
            refine ⟨?_, ?_⟩
            · rw [hph]
              exact hs
            · intro o ho hid
              rw [hpo2] at ho
              exact hpc o ho hid
        · have hstep2 : hookStep hO J1 = Except.ok (J1, []) := by
            simp [hookStep, hhk]
          obtain ⟨hst, hph, hpo2, hpc⟩ := processQueueJob_done_props (Except.ok raw)
            hO bO job0 J1 J1 [StageReq.outline] [] hstep1 hstep2 hb (hOK0 J1)
          refine ⟨?_, ?_⟩
          · rw [hph, hJ1hook]
            exact hhk
          · intro o ho hid
            rw [hpo2] at ho
            exact hpc o ho hid
  · set J1 : ScriptJob := { job0 with status := JobStatus.RUNNING } with hJ1
    have hstep1 : outlineStep oO { job0 with status := JobStatus.RUNNING } =
        Except.ok (J1, []) := by
      rw [hJ1]
      simp [outlineStep, hraw]
    have hJ1hook : J1.hook = job0.hook := by rw [hJ1]
    have hOK1 : ∀ o, o ∈ J1.outlines → 0 < o.id →
        contentAt job0.chaptersContent o.id ≠ "" →
        contentAt J1.chaptersContent o.id ≠ "" := by
      intro o _ _ hcon
      exact hcon
    by_cases hhk : job0.hook = ""
    · cases hO with
      | error e2 =>
        exfalso
        have hsh : (processQueueJob oO (Except.error e2) bO job0).1 = failJob J1 e2 := by
          simp only [processQueueJob, hstep1]
          simp [hookStep, hhk]
        rw [hsh] at hdone
        simp [failJob] at hdone
      | ok s =>
        have hs := hh s rfl
        have hstep2 : hookStep (Except.ok s) J1 =
            Except.ok ({ J1 with hook := s, wordsWritten := countWords s },
              [StageReq.hookReq]) := by
          simp [hookStep, hhk]
        have hOK2 : ∀ o, o ∈ ({ J1 with hook := s, wordsWritten := countWords s } :
            ScriptJob).outlines → 0 < o.id →
            contentAt job0.chaptersContent o.id ≠ "" →
            contentAt ({ J1 with hook := s, wordsWritten := countWords s} :
              ScriptJob).chaptersContent o.id ≠ "" := by
          intro o _ _ hcon
          exact hcon
        obtain ⟨hst, hph, hpo2, hpc⟩ := processQueueJob_done_props oO
          (Except.ok s) bO job0 J1 { J1 with hook := s, wordsWritten := countWords s }
          [] [StageReq.hookReq] hstep1 hstep2 hb hOK2
        refine ⟨?_, ?_⟩
        · rw [hph]
          exact hs
        · intro o ho hid
          rw [hpo2] at ho
          exact hpc o ho hid
    · have hstep2 : hookStep hO J1 = Except.ok (J1, []) := by
        simp [hookStep, hhk]
      obtain ⟨hst, hph, hpo2, hpc⟩ := processQueueJob_done_props oO
        hO bO job0 J1 J1 [] [] hstep1 hstep2 hb hOK1
      refine ⟨?_, ?_⟩
      · rw [hph, hJ1hook]
        exact hhk
      · intro o ho hid
        rw [hpo2] at ho
        exact hpc o ho hid

/-- C5 witness: on the amended hypotheses, the resumed job with one
nonempty segment per chapter completes DONE with chapter 1
filled. -/
theorem c5_witness :
    (processQueueJob (Except.error "no") (Except.error "no") wbatchOk wjobResume).1.status =
      JobStatus.DONE ∧
    contentAt (processQueueJob (Except.error "no") (Except.error "no") wbatchOk
      wjobResume).1.chaptersContent 1 ≠ "" := by
  have hdone : (processQueueJob (Except.error "no") (Except.error "no") wbatchOk
      wjobResume).1.status = JobStatus.DONE := by decide
  have h := c5_done_invariant_amended wjobResume (Except.error "no") (Except.error "no")
    wbatchOk
    (fun ids => ⟨ids.map (fun _ => "w"), rfl, by simp, fun c hc => by
      obtain ⟨x, -, rfl⟩ := List.mem_map.mp hc
      decide⟩)
    (fun s hs => by cases hs)
    (fun habs => absurd habs (by decide))
    hdone
  refine ⟨hdone, ?_⟩
  exact h.2 ⟨1, "a", 5, "x"⟩ (by decide) (by decide)

/-- C6 witness: on a queue with one running and one pending job,
STOP fails the running job, keeps its chapter contents, and leaves
the pending job untouched. -/
theorem c6_witness :
    (handleAutomationControlStop wautoState).runState = RunState.IDLE ∧
    ((handleAutomationControlStop wautoState).jobs.getD 0 default).status = JobStatus.FAILED ∧
    ((handleAutomationControlStop wautoState).jobs.getD 0 default).chaptersContent =
      (wautoState.jobs.getD 0 default).chaptersContent ∧
    (handleAutomationControlStop wautoState).jobs.getD 1 default =
      wautoState.jobs.getD 1 default := by
  have h := c6_stop_control wautoState
  have h0 := (h.2.2.1 0 (by decide)).1 (by decide)
  have h1 := (h.2.2.1 1 (by decide)).2 (by decide)
  exact ⟨h.1, h0.1, h0.2.2.2.2.2.2, h1⟩

end ScriptApp
